import Mathlib

/-!
Verification of the pygskin ECS core and state machines.

This file embeds, in Lean, the data model and operations of:
  - src/pygskin/sparse_array.py  (SparseArray)
  - src/pygskin/ecs.py           (global component registry, entity id
    allocation, kill_entity, the cached get_component_arrays query)
  - src/pygskin/pubsub.py        (Message publish with stopProcessing flag)
  - src/pygskin/statemachine.py  (coroutine StateMachine step semantics)
  - src/pygskin/state_machine.py (class-based StateMachine.next_state)

Machine integers are modelled as Nat (entity ids are non-negative in all
code paths exercised by the ECS).  Python lists become Lean lists, Python
sets become Finset Nat, dicts become insertion-ordered association lists.
Fallible operations (KeyError paths) return Except.
-/

namespace Pygskin

/-- Model of sparse_array.py SparseArray: a backing list of optional values
(None-filled slack), the set of active indices, and the capacity field.
Python invariant: the backing list has length equal to capacity. -/
structure SparseArray (V : Type) where
  vals : List (Option V)
  activeSet : Finset Nat
  cap : Nat

deriving instance DecidableEq for SparseArray

namespace SparseArray

/-- SparseArray.__init__: [None] * initial_capacity, empty active set. -/
def mkArr (initialCapacity : Nat) : SparseArray V :=
  ⟨List.replicate initialCapacity none, ∅, initialCapacity⟩

/-- SparseArray._expand: extend the backing list with None up to newSize. -/
def expand (a : SparseArray V) (newSize : Nat) : SparseArray V :=
  ⟨a.vals ++ List.replicate (newSize - a.cap) none, a.activeSet, newSize⟩

/-- SparseArray.__setitem__: grow to max(index+1, capacity*2) when the index
is at or beyond capacity, then store the value and mark the index active. -/
def setitem (a : SparseArray V) (index : Nat) (value : V) : SparseArray V :=
  let a2 := if a.cap ≤ index then a.expand (max (index + 1) (a.cap * 2)) else a
  ⟨a2.vals.set index (some value), insert index a2.activeSet, a2.cap⟩

/-- SparseArray.get(index, default): the backing cell when the index is
active, the default otherwise.  Python's default argument is None. -/
def getD (a : SparseArray V) (index : Nat) (default : Option V) : Option V :=
  if index ∈ a.activeSet then a.vals.getD index none else default

/-- Error raised by the indexing operations: KeyError carrying the index. -/
inductive Err where
  | keyError (index : Nat)

deriving instance DecidableEq for Err

/-- SparseArray.__getitem__: KeyError on an inactive index, otherwise the
backing cell. -/
def getitem (a : SparseArray V) (index : Nat) : Except Err (Option V) :=
  if index ∈ a.activeSet then .ok (a.vals.getD index none)
  else .error (.keyError index)

/-- SparseArray.__delitem__: KeyError on an inactive index, otherwise clear
the backing cell and deactivate the index. -/
def delitem (a : SparseArray V) (index : Nat) : Except Err (SparseArray V) :=
  if index ∈ a.activeSet then
    .ok ⟨a.vals.set index none, a.activeSet.erase index, a.cap⟩
  else .error (.keyError index)

/-- SparseArray.__contains__: membership in the active set. -/
def containsIdx (a : SparseArray V) (index : Nat) : Bool :=
  decide (index ∈ a.activeSet)

/-- The Python representation invariant: the backing list's length is the
capacity field (true of __init__ and preserved by every method). -/
def Inv (a : SparseArray V) : Prop := a.vals.length = a.cap

end SparseArray

/-- Model of the global ECS state in ecs.py: EntityMeta._components (a dict
from component name to SparseArray, insertion ordered), the id allocator
fields EntityMeta._next_entity_id and EntityMeta._free_entity_ids, and the
functools.cache memo of get_component_arrays (its entity-id sets, keyed by
the queried name tuple).  The field liveEids is a ghost history field: the
ids of the entities created and not yet killed, in creation order. -/
structure World (V : Type) where
  components : List (String × SparseArray V)
  nextEntityId : Nat
  freeEntityIds : List Nat
  liveEids : List Nat
  cacheQ : List (List String × Finset Nat)

deriving instance DecidableEq for World

/-- The state of ecs.py at import time: no stores, counter 0, empty free
list, empty memo. -/
def initialWorld : World V := ⟨[], 0, [], [], []⟩

/-- Entity id allocation in the generated __init__ (EntityMeta.__new__):
try free list pop (Python list.pop removes the LAST element), else take the
counter and increment it.  Returns the id and the new state; the ghost live
list records the new entity. -/
def createEntity (w : World V) : Nat × World V :=
  match w.freeEntityIds.getLast? with
  | some eid =>
      (eid, { w with freeEntityIds := w.freeEntityIds.dropLast,
                     liveEids := w.liveEids ++ [eid] })
  | none =>
      (w.nextEntityId,
        { w with nextEntityId := w.nextEntityId + 1,
                 liveEids := w.liveEids ++ [w.nextEntityId] })

/-- The body of kill_entity's per-store step:
if eid in component_array: del component_array[eid]. -/
def delIfPresent (st : SparseArray V) (eid : Nat) : SparseArray V :=
  if eid ∈ st.activeSet then
    ⟨st.vals.set eid none, st.activeSet.erase eid, st.cap⟩
  else st

/-- kill_entity: delete the id from every store that holds it, append it to
the free list, and clear the get_component_arrays cache.  The ghost live
list drops (one occurrence of) the id. -/
def killEntity (w : World V) (eid : Nat) : World V :=
  { w with components := w.components.map (fun p => (p.1, delIfPresent p.2 eid)),
           freeEntityIds := w.freeEntityIds ++ [eid],
           liveEids := w.liveEids.erase eid,
           cacheQ := [] }

/-- Dict lookup on the component registry (EntityMeta._components[name]). -/
def lookupStore (w : World V) (name : String) : Option (SparseArray V) :=
  (w.components.find? (fun p => decide (p.1 = name))).map (fun p => p.2)

/-- Component.__set__: EntityMeta._components.setdefault(name,
SparseArray())[eid] = value, then get_component_arrays.cache_clear().
Python's default initial capacity is 1024. -/
def setComponent (w : World V) (name : String) (eid : Nat) (v : V) : World V :=
  let comps :=
    if (w.components.find? (fun p => decide (p.1 = name))).isSome then w.components
    else w.components ++ [(name, SparseArray.mkArr 1024)]
  { w with
      components :=
        comps.map (fun p => if p.1 = name then (p.1, p.2.setitem eid v) else p),
      cacheQ := [] }

/-- The active set contributed by one queried name:
EntityMeta._components.get(name, SparseArray())._active. -/
def activeOf (w : World V) (name : String) : Finset Nat :=
  match lookupStore w name with
  | some st => st.activeSet
  | none => ∅

/-- The entity-id set computed by the body of get_component_arrays: empty
when no names are requested, otherwise
reduce(set.intersection, (a._active for a in arrays)). -/
def naiveQuery (w : World V) (names : List String) : Finset Nat :=
  match names with
  | [] => ∅
  | n :: rest => (rest.map (activeOf w)).foldl (fun s t => s ∩ t) (activeOf w n)

/-- The functools.cache wrapper around get_component_arrays: return the
memoized entity-id set on a hit, otherwise compute it and record it. -/
def getComponentArrays (w : World V) (names : List String) :
    Finset Nat × World V :=
  match w.cacheQ.find? (fun p => decide (p.1 = names)) with
  | some p => (p.2, w)
  | none =>
      let r := naiveQuery w names
      (r, { w with cacheQ := (names, r) :: w.cacheQ })

/-- Component.__get__ on an instance:
EntityMeta._components[self.name].get(instance.eid) — a dict KeyError when
no store exists for the name, otherwise SparseArray.get with default None. -/
inductive CompErr where
  | keyErrorName (name : String)

deriving instance DecidableEq for CompErr

/-- The descriptor read path of Component.__get__. -/
def componentGet (w : World V) (name : String) (eid : Nat) :
    Except CompErr (Option V) :=
  match lookupStore w name with
  | none => .error (.keyErrorName name)
  | some st => .ok (st.getD eid none)

/-- The ECS-level mutations and queries whose interleavings the claims
quantify over: Component.__set__, kill_entity, and a
get_component_arrays query (which may populate the memo). -/
inductive WOp (V : Type) where
  | setC (name : String) (eid : Nat) (v : V)
  | kill (eid : Nat)
  | query (names : List String)

/-- Run one ECS operation. -/
def applyWOp (w : World V) : WOp V → World V
  | .setC n e v => setComponent w n e v
  | .kill e => killEntity w e
  | .query ns => (getComponentArrays w ns).2

/-- Run a sequence of ECS operations. -/
def runWOps (w : World V) (ops : List (WOp V)) : World V :=
  ops.foldl applyWOp w

/-- Cache coherence: every memoized entry equals the naive recomputation on
the current stores. -/
def CacheOK (w : World V) : Prop :=
  ∀ p ∈ w.cacheQ, p.2 = naiveQuery w p.1

/-- An operation sequence that never writes a component for the given id
(used to express "until a subsequent create reissues the handle"). -/
def AvoidsSet (ops : List (WOp V)) (eid : Nat) : Prop :=
  ∀ op ∈ ops, ∀ n v, op ≠ WOp.setC n eid v

/-- The entity allocator operations of the handle-uniqueness claims. -/
inductive EOp where
  | create
  | destroy (eid : Nat)

deriving instance DecidableEq for EOp

/-- Run one allocator operation. -/
def applyEOp (w : World V) : EOp → World V
  | .create => (createEntity w).2
  | .destroy e => killEntity w e

/-- Run a sequence of allocator operations. -/
def runEOps (w : World V) (ops : List EOp) : World V :=
  ops.foldl applyEOp w

/-- Well-formed allocator traces: destroy is only applied to an id that is
live at that point. -/
def WFOps (w : World V) : List EOp → Prop
  | [] => True
  | .create :: ops => WFOps ((createEntity w).2) ops
  | .destroy e :: ops => e ∈ w.liveEids ∧ WFOps (killEntity w e) ops

/-- The allocator invariant behind handle uniqueness. -/
def RegInv (w : World V) : Prop :=
  w.liveEids.Nodup ∧ w.freeEntityIds.Nodup ∧
  (∀ h ∈ w.liveEids, h ∉ w.freeEntityIds) ∧
  (∀ h ∈ w.liveEids, h < w.nextEntityId) ∧
  (∀ h ∈ w.freeEntityIds, h < w.nextEntityId)

/-! ### statemachine.py: the coroutine StateMachine -/

/-- A transition function of statemachine.py: takes an input and returns a
next state or None. -/
def SMTransition (I S : Type) := I → Option S

/-- The transition table, a dict from state to ordered transition list. -/
def SMTable (I S : Type) := List (S × List (SMTransition I S))

/-- The observable outcome of one send on the coroutine: the state yielded
back, whether the triggered and not_triggered messages fired, and how many
transition functions were called with the input. -/
structure StepResult (S : Type) where
  state : S
  triggeredFired : Bool
  notTriggeredFired : Bool
  evaluated : Nat

deriving instance DecidableEq for StepResult

/-- Whether the walrus test `if next_state := transition(input)` succeeds:
the returned value must be truthy (None is falsy, and so may be a state
value such as the empty string). -/
def firesB (truthy : S → Bool) (t : SMTransition I S) (i : I) : Bool :=
  match t i with
  | some s => truthy s
  | none => false

/-- The for-loop over the current state's transitions: returns the first
truthy next state (if any) and the number of transition functions called. -/
def scanT (truthy : S → Bool) : List (SMTransition I S) → I → Option S × Nat
  | [], _ => (none, 0)
  | t :: rest, i =>
      match t i with
      | some s =>
          if truthy s then (some s, 1)
          else
            let r := scanT truthy rest i
            (r.1, r.2 + 1)
      | none =>
          let r := scanT truthy rest i
          (r.1, r.2 + 1)

/-- Error raised by a send: self.transition_table[self.state] raises
KeyError when the current state is not a table key. -/
inductive SMErr where
  | keyErrorState
  | noTransition

deriving instance DecidableEq for SMErr

/-- One send on the coroutine of StateMachine._coro: look up the current
state's transitions, try them in order, move to the first truthy next state
(firing triggered) or stay put (firing not_triggered). -/
def stepSM [DecidableEq S] (tbl : SMTable I S) (truthy : S → Bool)
    (s : S) (i : I) : Except SMErr (StepResult S) :=
  match tbl.find? (fun p => decide (p.1 = s)) with
  | none => .error .keyErrorState
  | some p =>
      match scanT truthy p.2 i with
      | (some s2, n) => .ok ⟨s2, true, false, n⟩
      | (none, n) => .ok ⟨s, false, true, n⟩

/-- The declared initial state: the given one, defaulting to the first key
of the transition table (next(iter(self.transition_table))). -/
def initialStateSM (tbl : SMTable I S) (s0 : Option S) : Option S :=
  match s0 with
  | some s => some s
  | none => tbl.head?.map (fun p => p.1)

/-! ### state_machine.py: the class-based StateMachine -/

/-- A Transition object of state_machine.py: a target state, the
is_triggered_by test on the input, and the optional condition (constantly
true when no condition was given). -/
structure TransitionCls (I S : Type) where
  toState : S
  triggers : I → Bool
  cond : I → Bool

/-- StateMachine.next_state of state_machine.py: the first transition of
the current state that is triggered by the input and passes its condition
fires; when none does, a KeyError(f"No transition for ...") is raised. -/
def nextStateCls [DecidableEq S] (tbl : List (S × List (TransitionCls I S)))
    (s : S) (i : I) : Except SMErr S :=
  match tbl.find? (fun p => decide (p.1 = s)) with
  | none => .error .keyErrorState
  | some p =>
      match p.2.find? (fun t => t.triggers i && t.cond i) with
      | some t => .ok t.toState
      | none => .error .noTransition

/-! ### pubsub.py: Message -/

/-- A subscriber, identified for observation purposes by an id, together
with whether its body sets the publishing message's stopProcessing flag
(the cancellation signal checked by Message.__call__). -/
structure Subscriber where
  sid : Nat
  cancels : Bool

deriving instance DecidableEq for Subscriber

/-- Model of pubsub.Message: the ordered subscriber list, whether a default
wrapped callback is present, and the stopProcessing flag. -/
structure Message where
  subscribers : List Subscriber
  hasCallback : Bool
  stopProcessing : Bool

deriving instance DecidableEq for Message

/-- The subscriber loop of Message.__call__: the flag is tested before each
subscriber; a subscriber that runs may set it.  Returns the ids of the
subscribers that actually ran and the flag after the loop. -/
def pubLoop : List Subscriber → Bool → List Nat × Bool
  | [], flag => ([], flag)
  | sub :: rest, flag =>
      if flag then pubLoop rest flag
      else
        let r := pubLoop rest sub.cancels
        (sub.sid :: r.1, r.2)

/-- Message.__call__: run the subscriber loop, run the default callback
when present and not cancelled, then reset stopProcessing to False.
Returns (ids of subscribers that ran, whether the callback ran, the
message afterwards). -/
def publish (m : Message) : List Nat × Bool × Message :=
  let r := pubLoop m.subscribers m.stopProcessing
  (r.1, m.hasCallback && !r.2, { m with stopProcessing := false })

/-! ### Decidable trace predicates -/

/-- Boolean form of WFOps: destroy only ever targets a currently-live id. -/
def wfOpsB (w : World V) : List EOp → Bool
  | [] => true
  | .create :: ops => wfOpsB ((createEntity w).2) ops
  | .destroy e :: ops => decide (e ∈ w.liveEids) && wfOpsB (killEntity w e) ops

/-- Boolean check that no operation in the list writes a component for the
given entity id. -/
def avoidsSetB (ops : List (WOp V)) (eid : Nat) : Bool :=
  ops.all (fun op =>
    match op with
    | .setC _ e _ => decide (e ≠ eid)
    | _ => true)

/-! ### Concrete instances used by witnesses and counterexamples -/

/-- Python truthiness of a string state: the empty string is falsy. -/
def truthyStr (s : String) : Bool := !(s == "")

/-- A transition that returns the empty string: a non-None state that is
nevertheless falsy under Python truthiness. -/
def t1C4 : SMTransition Nat String := fun _ => some ""

/-- A transition that returns the (truthy) state "b". -/
def t2C4 : SMTransition Nat String := fun _ => some "b"

/-- A one-state table whose first transition returns a falsy state. -/
def tblC4 : SMTable Nat String := [("a", [t1C4, t2C4])]

/-- A concrete coroutine-machine table: a lock accepting the digit 5. -/
def tblC7 : SMTable Nat String :=
  [("locked", [fun i => if i = 5 then some "entering" else none])]

/-- A concrete class-based table (state_machine.py): from "locked" a single
Transition to "open" triggered only by input 1, with no condition. -/
def tblC7cls : List (String × List (TransitionCls Nat String)) :=
  [("locked", [⟨"open", fun i => decide (i = 1), fun _ => true⟩])]

/-- A table whose second state has no transitions, over the two-valued
input type: every possible input can be checked exhaustively. -/
def tblC9 : SMTable Bool String := [("A", [fun _ => some "B"]), ("B", [])]

/-- A message with three subscribers of which the middle one cancels, and
a default wrapped callback. -/
def msgC8 : Message := ⟨[⟨0, false⟩, ⟨1, true⟩, ⟨2, false⟩], true, false⟩

/-- A world in which entity 0 has the component "pos" and entity 1 has no
components at all. -/
def wC6 : World Nat := setComponent initialWorld "pos" 0 5

/-- A store in which index 2 was never set. -/
def stNeverC6 : SparseArray Nat := (SparseArray.mkArr 4).setitem 0 5

/-- A store in which index 2 was set and then explicitly removed. -/
def stClearedC6 : SparseArray Nat := delIfPresent (stNeverC6.setitem 2 7) 2

/-- A world with one live entity 0 carrying component "A" (built by a
create followed by a component write, as the generated __init__ does). -/
def wC5 : World Nat :=
  setComponent (createEntity (initialWorld : World Nat)).2 "A" 0 5

/-- A mutation/query interleaving used to exercise the memoized query. -/
def opsC2 : List (WOp Nat) :=
  [.setC "A" 0 1, .setC "B" 0 2, .setC "A" 1 3, .query ["A", "B"],
   .kill 0, .query ["A", "B"], .query ["A"]]

/-- The double-destroy then double-create trace: a well-formedness
violation that duplicates a live handle. -/
def opsC1 : List EOp :=
  [.create, .destroy 0, .destroy 0, .create, .create]

/-- A well-formed allocator trace. -/
def opsC1wf : List EOp :=
  [.create, .create, .destroy 0, .create, .create, .destroy 1, .create]

/-- A small initial store for the growth witness. -/
def arrC3 : SparseArray Nat := SparseArray.mkArr 2

/-! ## Helper lemmas on lists -/

theorem list_getD_replicate_none (m j : Nat) :
    (List.replicate m (none : Option V)).getD j none = none := by
  induction m generalizing j with
  | zero => simp
  | succ n ih =>
    cases j with
    | zero => simp [List.replicate]
    | succ k => simp [List.replicate, ih k]

theorem list_getD_append_pad (l : List (Option V)) (m j : Nat) :
    (l ++ List.replicate m none).getD j none = l.getD j none := by
  induction l generalizing j with
  | nil => simp [list_getD_replicate_none m j]
  | cons a t ih =>
    cases j with
    | zero => simp
    | succ k => simpa using ih k

theorem list_getD_set_self {A : Type} (l : List A) (i : Nat) (x d : A)
    (h : i < l.length) : (l.set i x).getD i d = x := by
  induction l generalizing i with
  | nil => simp at h
  | cons a t ih =>
    cases i with
    | zero => simp [List.set]
    | succ k => simpa [List.set] using ih k (by simpa using h)

theorem list_getD_set_ne {A : Type} (l : List A) (i j : Nat) (x d : A)
    (h : j ≠ i) : (l.set i x).getD j d = l.getD j d := by
  induction l generalizing i j with
  | nil => simp [List.set]
  | cons a t ih =>
    cases i with
    | zero =>
      cases j with
      | zero => exact absurd rfl h
      | succ k => simp [List.set]
    | succ m =>
      cases j with
      | zero => simp [List.set]
      | succ k => simpa [List.set] using ih m k (fun hh => h (by rw [hh]))

/-! ## SparseArray lemmas (claim C3) -/

theorem setitem_of_ge {V : Type} (a : SparseArray V) (i : Nat) (v : V)
    (h : a.cap ≤ i) :
    a.setitem i v =
      ⟨(a.vals ++ List.replicate (max (i + 1) (a.cap * 2) - a.cap) none).set
          i (some v),
        insert i a.activeSet, max (i + 1) (a.cap * 2)⟩ := by
  simp [SparseArray.setitem, SparseArray.expand, if_pos h]

theorem setitem_of_lt {V : Type} (a : SparseArray V) (i : Nat) (v : V)
    (h : i < a.cap) :
    a.setitem i v = ⟨a.vals.set i (some v), insert i a.activeSet, a.cap⟩ := by
  simp [SparseArray.setitem, if_neg (not_le.mpr h)]

/-- C3: after set(i, v), get(i) returns v, including when i is at or beyond
current capacity; a set beyond capacity grows the backing array to exactly
max(i+1, capacity*2) (and in-capacity sets do not grow it); all previously
readable values are preserved; only indices in the active set count as
populated regardless of backing-array contents; and the length invariant
is maintained. -/
theorem sparse_set_get_growth {V : Type} (a : SparseArray V) (i : Nat) (v : V)
    (hinv : a.Inv) :
    (a.setitem i v).getD i none = some v
    ∧ (a.setitem i v).containsIdx i = true
    ∧ (a.cap ≤ i → (a.setitem i v).cap = max (i + 1) (a.cap * 2))
    ∧ (i < a.cap → (a.setitem i v).cap = a.cap)
    ∧ (∀ j, j ≠ i → ∀ d, (a.setitem i v).getD j d = a.getD j d)
    ∧ (∀ j d, j ∉ a.activeSet → a.getD j d = d)
    ∧ (a.setitem i v).Inv := by
  have hlen : a.vals.length = a.cap := hinv
  by_cases hc : a.cap ≤ i
  · have hM : i + 1 ≤ max (i + 1) (a.cap * 2) := le_max_left _ _
    have hcM : a.cap ≤ max (i + 1) (a.cap * 2) := le_trans (by omega) hM
    have hpadlen :
        (a.vals ++ List.replicate (max (i + 1) (a.cap * 2) - a.cap)
            (none : Option V)).length = max (i + 1) (a.cap * 2) := by
      simp [List.length_append, hlen]
      omega
    rw [setitem_of_ge a i v hc]
    refine ⟨?_, ?_, ?_, ?_, ?_, ?_, ?_⟩
    · simp only [SparseArray.getD, Finset.mem_insert, if_pos (Or.inl rfl)]
      exact list_getD_set_self _ i (some v) none (by omega)
    · simp [SparseArray.containsIdx]
    · intro _; rfl
    · intro hlt; omega
    · intro j hj d
      simp only [SparseArray.getD, Finset.mem_insert]
      by_cases hja : j ∈ a.activeSet
      · simp only [hja, or_true, if_true, if_pos hja]
        rw [list_getD_set_ne _ i j _ _ hj, list_getD_append_pad]
      · have : ¬(j = i ∨ j ∈ a.activeSet) := by
          intro hor; rcases hor with h1 | h2
          · exact hj h1
          · exact hja h2
        simp only [if_neg this, if_neg hja]
    · intro j d hj; simp only [SparseArray.getD, if_neg hj]
    · show (List.set _ i (some v)).length = max (i + 1) (a.cap * 2)
      simp [List.length_set, hpadlen]
  · have hlt : i < a.cap := not_le.mp hc
    rw [setitem_of_lt a i v hlt]
    refine ⟨?_, ?_, ?_, ?_, ?_, ?_, ?_⟩
    · simp only [SparseArray.getD, Finset.mem_insert, if_pos (Or.inl rfl)]
      exact list_getD_set_self _ i (some v) none (by omega)
    · simp [SparseArray.containsIdx]
    · intro hge; omega
    · intro _; rfl
    · intro j hj d
      simp only [SparseArray.getD, Finset.mem_insert]
      by_cases hja : j ∈ a.activeSet
      · simp only [hja, or_true, if_true, if_pos hja]
        rw [list_getD_set_ne _ i j _ _ hj]
      · have : ¬(j = i ∨ j ∈ a.activeSet) := by
          intro hor; rcases hor with h1 | h2
          · exact hj h1
          · exact hja h2
        simp only [if_neg this, if_neg hja]
    · intro j d hj; simp only [SparseArray.getD, if_neg hj]
    · show (List.set _ i (some v)).length = a.cap
      simp [List.length_set, hlen]

/-- Witness for C3: a store of capacity 2 receives a write at index 5; the
read returns the value and the capacity becomes max(5+1, 2*2) = 6. -/
theorem sparse_set_get_growth_witness :
    arrC3.Inv ∧ (arrC3.setitem 5 7).getD 5 none = some 7
    ∧ (arrC3.setitem 5 7).cap = 6 :=
  ⟨rfl, (sparse_set_get_growth arrC3 5 7 rfl).1, by
    have h := (sparse_set_get_growth arrC3 5 7 rfl).2.2.1 (by decide)
    simpa using h⟩

/-! ## Entity allocator lemmas (claims C1 and C10) -/

theorem createEntity_concat {V : Type} (w : World V) (l : List Nat) (a : Nat)
    (h : w.freeEntityIds = l ++ [a]) :
    createEntity w =
      (a, { w with freeEntityIds := l, liveEids := w.liveEids ++ [a] }) := by
  simp [createEntity, h, List.getLast?_concat, List.dropLast_concat]

theorem createEntity_nil {V : Type} (w : World V) (h : w.freeEntityIds = []) :
    createEntity w =
      (w.nextEntityId,
        { w with nextEntityId := w.nextEntityId + 1,
                 liveEids := w.liveEids ++ [w.nextEntityId] }) := by
  simp [createEntity, h]

theorem createEntity_nil_snd {V : Type} (w : World V)
    (h : w.freeEntityIds = []) :
    (createEntity w).2 =
      { w with nextEntityId := w.nextEntityId + 1,
               liveEids := w.liveEids ++ [w.nextEntityId] } := by
  rw [createEntity_nil w h]

theorem createEntity_concat_snd {V : Type} (w : World V) (l : List Nat)
    (a : Nat) (h : w.freeEntityIds = l ++ [a]) :
    (createEntity w).2 =
      { w with freeEntityIds := l, liveEids := w.liveEids ++ [a] } := by
  rw [createEntity_concat w l a h]

theorem regInv_createEntity {V : Type} (w : World V) (hi : RegInv w) :
    RegInv (createEntity w).2 := by
  obtain ⟨hln, hfn, hdisj, hlb, hfb⟩ := hi
  rcases List.eq_nil_or_concat' w.freeEntityIds with hnil | ⟨l, a, hconcat⟩
  · rw [createEntity_nil_snd w hnil]
    refine ⟨?_, ?_, ?_, ?_, ?_⟩
    · have hnl : w.nextEntityId ∉ w.liveEids := fun hmem =>
        absurd (hlb _ hmem) (by omega)
      simp [List.nodup_append, hln, hnl]
    · simp [hnil]
    · intro x hx
      simp [hnil]
    · intro x hx
      have hx2 : x ∈ w.liveEids ++ [w.nextEntityId] := hx
      show x < w.nextEntityId + 1
      rcases List.mem_append.mp hx2 with hx1 | hx3
      · exact lt_trans (hlb x hx1) (by omega)
      · simp at hx3; omega
    · intro x hx
      simp [hnil] at hx
  · rw [createEntity_concat_snd w l a hconcat]
    have hal : a ∈ w.freeEntityIds := by rw [hconcat]; simp
    have hanl : a ∉ w.liveEids := fun hmem => absurd hal (hdisj a hmem)
    have hfn2 : (l ++ [a]).Nodup := by rw [← hconcat]; exact hfn
    have hlnodup : l.Nodup := (List.nodup_append.mp hfn2).1
    have hanotl : a ∉ l := by
      have := (List.nodup_append.mp hfn2).2.2
      intro hmem
      exact this hmem (by simp)
    refine ⟨?_, ?_, ?_, ?_, ?_⟩
    · simp [List.nodup_append, hln, hanl]
    · exact hlnodup
    · intro x hx
      rcases List.mem_append.mp hx with hx1 | hx2
      · intro hmem
        exact hdisj x hx1 (by rw [hconcat]; exact List.mem_append.mpr (Or.inl hmem))
      · simp at hx2
        subst hx2
        exact hanotl
    · intro x hx
      rcases List.mem_append.mp hx with hx1 | hx2
      · exact hlb x hx1
      · simp at hx2; rw [hx2]; exact hfb a hal
    · intro x hx
      exact hfb x (by rw [hconcat]; exact List.mem_append.mpr (Or.inl hx))

theorem regInv_killEntity {V : Type} (w : World V) (e : Nat)
    (he : e ∈ w.liveEids) (hi : RegInv w) : RegInv (killEntity w e) := by
  obtain ⟨hln, hfn, hdisj, hlb, hfb⟩ := hi
  have henf : e ∉ w.freeEntityIds := hdisj e he
  refine ⟨?_, ?_, ?_, ?_, ?_⟩
  · exact hln.erase e
  · simp [killEntity, List.nodup_append, hfn, henf]
  · intro x hx
    simp only [killEntity] at hx ⊢
    have hx2 := (hln.mem_erase_iff).mp hx
    intro hmem
    rcases List.mem_append.mp hmem with hm1 | hm2
    · exact hdisj x hx2.2 hm1
    · simp at hm2; exact hx2.1 hm2
  · intro x hx
    simp only [killEntity] at hx ⊢
    exact hlb x (List.mem_of_mem_erase hx)
  · intro x hx
    simp only [killEntity] at hx ⊢
    rcases List.mem_append.mp hx with hm1 | hm2
    · exact hfb x hm1
    · simp at hm2; rw [hm2]; exact hlb e he

theorem regInv_runEOps {V : Type} (w : World V) (ops : List EOp)
    (hi : RegInv w) (hwf : WFOps w ops) : RegInv (runEOps w ops) := by
  induction ops generalizing w with
  | nil => exact hi
  | cons op rest ih =>
    cases op with
    | create =>
      exact ih ((createEntity w).2) (regInv_createEntity w hi) hwf
    | destroy e =>
      obtain ⟨he, hwf2⟩ := hwf
      exact ih (killEntity w e) (regInv_killEntity w e he hi) hwf2

theorem regInv_initialWorld {V : Type} : RegInv (initialWorld : World V) := by
  refine ⟨?_, ?_, ?_, ?_, ?_⟩ <;> simp [initialWorld]

theorem wfOpsB_sound {V : Type} (w : World V) (ops : List EOp)
    (h : wfOpsB w ops = true) : WFOps w ops := by
  induction ops generalizing w with
  | nil => trivial
  | cons op rest ih =>
    cases op with
    | create => exact ih _ h
    | destroy e =>
      simp only [wfOpsB, Bool.and_eq_true, decide_eq_true_eq] at h
      exact ⟨h.1, ih _ h.2⟩

/-- C1 (amended): for every sequence of create/destroy operations in which
destroy is only ever applied to a currently-live handle, no two
simultaneously-live entities hold the same handle value; and create pops
the last element of the free list when it is non-empty, else returns the
counter and increments it. -/
theorem entity_handles_unique {V : Type} (ops : List EOp)
    (hwf : WFOps (initialWorld : World V) ops) :
    (runEOps (initialWorld : World V) ops).liveEids.Nodup
    ∧ (∀ w : World V, w.freeEntityIds = [] →
        (createEntity w).1 = w.nextEntityId
        ∧ (createEntity w).2.nextEntityId = w.nextEntityId + 1)
    ∧ (∀ (w : World V) (l : List Nat) (a : Nat), w.freeEntityIds = l ++ [a] →
        (createEntity w).1 = a) := by
  refine ⟨?_, ?_, ?_⟩
  · exact (regInv_runEOps _ ops regInv_initialWorld hwf).1
  · intro w hw
    rw [createEntity_nil w hw]
    exact ⟨rfl, rfl⟩
  · intro w l a hw
    rw [createEntity_concat w l a hw]

/-- Witness for C1: a concrete well-formed trace of creates and destroys.
After create, create, destroy 0, create, create, destroy 1, create the
live handles are distinct. -/
theorem entity_handles_unique_witness :
    wfOpsB (initialWorld : World Nat) opsC1wf = true
    ∧ (runEOps (initialWorld : World Nat) opsC1wf).liveEids.Nodup :=
  ⟨by decide,
    (entity_handles_unique (V := Nat) opsC1wf
      (wfOpsB_sound _ _ (by decide))).1⟩

/-- Counterexample to C1 as stated: over the unrestricted operation
sequence create, destroy 0, destroy 0, create, create (a double destroy),
two simultaneously-live entities hold the same handle 0. -/
theorem entity_handles_unique_cex :
    ¬ (runEOps (initialWorld : World Nat) opsC1).liveEids.Nodup := by
  decide

/-- C10: destroying the same handle twice with no intervening create
appends it to the free list twice; the next two creates both return that
handle, and the live-entity history then holds two entities with equal
handles. -/
theorem double_destroy_reissues_twice {V : Type} (w : World V) (e : Nat) :
    (killEntity (killEntity w e) e).freeEntityIds = w.freeEntityIds ++ [e, e]
    ∧ (createEntity (killEntity (killEntity w e) e)).1 = e
    ∧ (createEntity
        (createEntity (killEntity (killEntity w e) e)).2).1 = e
    ∧ 2 ≤ (createEntity
        (createEntity (killEntity (killEntity w e) e)).2).2.liveEids.count e := by
  have hfree : (killEntity (killEntity w e) e).freeEntityIds
      = (w.freeEntityIds ++ [e]) ++ [e] := by
    simp [killEntity]
  have hc1 := createEntity_concat (killEntity (killEntity w e) e)
    (w.freeEntityIds ++ [e]) e hfree
  have hfree2 : (createEntity (killEntity (killEntity w e) e)).2.freeEntityIds
      = w.freeEntityIds ++ [e] := by rw [hc1]
  have hc2 := createEntity_concat (createEntity (killEntity (killEntity w e) e)).2
    w.freeEntityIds e hfree2
  refine ⟨by rw [hfree]; simp, by rw [hc1], by rw [hc2], ?_⟩
  have hlive : (createEntity
      (createEntity (killEntity (killEntity w e) e)).2).2.liveEids
      = (((w.liveEids.erase e).erase e) ++ [e]) ++ [e] := by
    rw [hc2, hc1]
    simp [killEntity]
  rw [hlive]
  simp [List.count_append]

/-! ## Query cache lemmas (claims C2 and C5) -/

theorem getComponentArrays_correct {V : Type} (w : World V)
    (names : List String) (h : CacheOK w) :
    (getComponentArrays w names).1 = naiveQuery w names := by
  unfold getComponentArrays
  cases hf : w.cacheQ.find? (fun p => decide (p.1 = names)) with
  | none => rfl
  | some p =>
    have hmem : p ∈ w.cacheQ := List.mem_of_find?_eq_some hf
    have hp : p.1 = names :=
      of_decide_eq_true (List.find?_some
        (p := fun (q : List String × Finset Nat) => decide (q.1 = names)) hf)
    rw [← hp]
    exact h p hmem

theorem cacheOK_setComponent {V : Type} (w : World V) (n : String) (e : Nat)
    (v : V) : CacheOK (setComponent w n e v) := by
  intro p hp
  have : p ∈ ([] : List (List String × Finset Nat)) := hp
  simp at this

theorem cacheOK_killEntity {V : Type} (w : World V) (e : Nat) :
    CacheOK (killEntity w e) := by
  intro p hp
  have : p ∈ ([] : List (List String × Finset Nat)) := hp
  simp at this

theorem cacheOK_query {V : Type} (w : World V) (names : List String)
    (h : CacheOK w) : CacheOK ((getComponentArrays w names).2) := by
  unfold getComponentArrays
  cases hf : w.cacheQ.find? (fun p => decide (p.1 = names)) with
  | none =>
    intro p hp
    have hp2 : p = (names, naiveQuery w names) ∨ p ∈ w.cacheQ := by
      simpa using hp
    rcases hp2 with hp3 | hp3
    · subst hp3; rfl
    · exact h p hp3
  | some q => exact h

theorem query_components {V : Type} (w : World V) (names : List String) :
    ((getComponentArrays w names).2).components = w.components := by
  unfold getComponentArrays
  cases w.cacheQ.find? (fun p => decide (p.1 = names)) <;> rfl

theorem cacheOK_runWOps {V : Type} (ops : List (WOp V)) (w : World V)
    (h : CacheOK w) : CacheOK (runWOps w ops) := by
  induction ops generalizing w with
  | nil => exact h
  | cons op rest ih =>
    cases op with
    | setC n e v => exact ih _ (cacheOK_setComponent w n e v)
    | kill e => exact ih _ (cacheOK_killEntity w e)
    | query ns => exact ih _ (cacheOK_query w ns h)

/-- C2: for every sequence of component writes and kills arbitrarily
interleaved with queries, the memoized get_component_arrays result always
equals the naive intersection of the stores' active sets recomputed from
scratch. -/
theorem query_matches_naive {V : Type} (w : World V) (ops : List (WOp V))
    (h : CacheOK w) :
    CacheOK (runWOps w ops)
    ∧ ∀ names, (getComponentArrays (runWOps w ops) names).1
        = naiveQuery (runWOps w ops) names := by
  have hc := cacheOK_runWOps ops w h
  exact ⟨hc, fun names => getComponentArrays_correct _ names hc⟩

/-- Witness for C2: a concrete interleaving of writes, a kill and queries,
after which the cached query for names A, B equals the naive
intersection. -/
theorem query_matches_naive_witness :
    (getComponentArrays (runWOps (initialWorld : World Nat) opsC2)
        ["A", "B"]).1
      = naiveQuery (runWOps (initialWorld : World Nat) opsC2) ["A", "B"] :=
  (query_matches_naive (initialWorld : World Nat) opsC2
    (fun p hp => absurd hp (List.not_mem_nil p))).2 ["A", "B"]

/-! ### Absence after kill_entity (claim C5) -/

/-- Every component store reports the id absent. -/
def AbsentEverywhere (w : World V) (eid : Nat) : Prop :=
  ∀ p ∈ w.components, eid ∉ p.2.activeSet

theorem setitem_activeSet {V : Type} (a : SparseArray V) (i : Nat) (v : V) :
    (a.setitem i v).activeSet = insert i a.activeSet := by
  by_cases h : a.cap ≤ i
  · rw [setitem_of_ge a i v h]
  · rw [setitem_of_lt a i v (not_le.mp h)]

theorem delIfPresent_not_mem {V : Type} (st : SparseArray V) (e : Nat) :
    e ∉ (delIfPresent st e).activeSet := by
  unfold delIfPresent
  by_cases h : e ∈ st.activeSet
  · simp [h]
  · simp [h]

theorem delIfPresent_not_mem_of {V : Type} (st : SparseArray V) (e x : Nat)
    (h : x ∉ st.activeSet) : x ∉ (delIfPresent st e).activeSet := by
  unfold delIfPresent
  by_cases h2 : e ∈ st.activeSet
  · simp only [h2, if_true]
    intro hmem
    exact h (Finset.mem_of_mem_erase hmem)
  · simpa [h2] using h

theorem absent_killEntity {V : Type} (w : World V) (e : Nat) :
    AbsentEverywhere (killEntity w e) e := by
  intro p hp
  have hp2 : p ∈ w.components.map (fun q => (q.1, delIfPresent q.2 e)) := hp
  obtain ⟨q, _, hq2⟩ := List.mem_map.mp hp2
  rw [← hq2]
  exact delIfPresent_not_mem q.2 e

theorem absent_killEntity_other {V : Type} (w : World V) (e eid : Nat)
    (h : AbsentEverywhere w eid) : AbsentEverywhere (killEntity w e) eid := by
  intro p hp
  have hp2 : p ∈ w.components.map (fun q => (q.1, delIfPresent q.2 e)) := hp
  obtain ⟨q, hq1, hq2⟩ := List.mem_map.mp hp2
  rw [← hq2]
  exact delIfPresent_not_mem_of q.2 e eid (h q hq1)

theorem absent_setComponent {V : Type} (w : World V) (n : String)
    (e eid : Nat) (v : V) (hne : e ≠ eid) (h : AbsentEverywhere w eid) :
    AbsentEverywhere (setComponent w n e v) eid := by
  intro p hp
  have hall : ∀ q ∈ (if (w.components.find?
        (fun p => decide (p.1 = n))).isSome then w.components
      else w.components ++ [(n, SparseArray.mkArr 1024)]),
      eid ∉ q.2.activeSet := by
    intro q hq
    by_cases hs : (w.components.find? (fun p => decide (p.1 = n))).isSome
    · exact h q (by simpa [hs] using hq)
    · have hq2 : q ∈ w.components ++ [(n, SparseArray.mkArr 1024)] := by
        simpa [hs] using hq
      rcases List.mem_append.mp hq2 with hq3 | hq3
      · exact h q hq3
      · have : q = (n, SparseArray.mkArr 1024) := by simpa using hq3
        rw [this]
        exact Finset.not_mem_empty eid
  have hp2 := hp
  simp only [setComponent] at hp2
  obtain ⟨q, hq1, hq2⟩ := List.mem_map.mp hp2
  rw [← hq2]
  by_cases hqn : q.1 = n
  · simp only [hqn, if_true]
    rw [setitem_activeSet]
    intro hmem
    rcases Finset.mem_insert.mp hmem with h1 | h2
    · exact hne h1.symm
    · exact hall q hq1 h2
  · simp only [hqn, if_false]
    exact hall q hq1

theorem absent_query {V : Type} (w : World V) (ns : List String) (eid : Nat)
    (h : AbsentEverywhere w eid) :
    AbsentEverywhere ((getComponentArrays w ns).2) eid := by
  intro p hp
  rw [query_components] at hp
  exact h p hp

theorem mem_foldl_inter (x : Nat) :
    ∀ (l : List (Finset Nat)) (init : Finset Nat),
      x ∈ l.foldl (fun s t => s ∩ t) init → x ∈ init
  | [], _, h => h
  | a :: t, init, h => by
    have h2 := mem_foldl_inter x t (init ∩ a) h
    exact (Finset.mem_inter.mp h2).1

theorem absent_activeOf {V : Type} (w : World V) (eid : Nat)
    (h : AbsentEverywhere w eid) (n : String) : eid ∉ activeOf w n := by
  unfold activeOf lookupStore
  cases hf : w.components.find? (fun p => decide (p.1 = n)) with
  | none => simp
  | some p =>
    have hmem : p ∈ w.components := List.mem_of_find?_eq_some hf
    exact h p hmem

theorem absent_naiveQuery {V : Type} (w : World V) (eid : Nat)
    (h : AbsentEverywhere w eid) (names : List String) :
    eid ∉ naiveQuery w names := by
  cases names with
  | nil => simp [naiveQuery]
  | cons n rest =>
    intro hmem
    exact absent_activeOf w eid h n (mem_foldl_inter eid _ _ hmem)

theorem absent_runWOps {V : Type} (eid : Nat) (ops : List (WOp V))
    (w0 : World V) (hc : CacheOK w0) (ha : AbsentEverywhere w0 eid)
    (hops : avoidsSetB ops eid = true) :
    CacheOK (runWOps w0 ops) ∧ AbsentEverywhere (runWOps w0 ops) eid := by
  induction ops generalizing w0 with
  | nil => exact ⟨hc, ha⟩
  | cons op rest ih =>
    have hops2 : avoidsSetB rest eid = true := by
      simp only [avoidsSetB, List.all_cons, Bool.and_eq_true] at hops
      exact hops.2
    cases op with
    | setC n e v =>
      have hne : e ≠ eid := by
        simp only [avoidsSetB, List.all_cons, Bool.and_eq_true,
          decide_eq_true_eq] at hops
        exact hops.1
      exact ih _ (cacheOK_setComponent w0 n e v)
        (absent_setComponent w0 n e eid v hne ha) hops2
    | kill e =>
      exact ih _ (cacheOK_killEntity w0 e)
        (absent_killEntity_other w0 e eid ha) hops2
    | query ns =>
      exact ih _ (cacheOK_query w0 ns hc) (absent_query w0 ns eid ha) hops2

/-- C5: after kill_entity on a live handle, every component store reports
the handle absent and no query over any component-name set returns it —
and this persists across further operations as long as none writes a
component for that handle (the only way it comes back is a later create
reissuing it and its components being written again). -/
theorem destroy_purges_handle {V : Type} (w : World V) (eid : Nat)
    (_hlive : eid ∈ w.liveEids) (ops : List (WOp V))
    (hops : avoidsSetB ops eid = true) :
    AbsentEverywhere (runWOps (killEntity w eid) ops) eid
    ∧ ∀ names,
        eid ∉ (getComponentArrays (runWOps (killEntity w eid) ops) names).1 := by
  have hc : CacheOK (killEntity w eid) := cacheOK_killEntity w eid
  have ha : AbsentEverywhere (killEntity w eid) eid := absent_killEntity w eid
  obtain ⟨hc2, ha2⟩ := absent_runWOps eid ops (killEntity w eid) hc ha hops
  refine ⟨ha2, fun names => ?_⟩
  rw [getComponentArrays_correct _ names hc2]
  exact absent_naiveQuery _ eid ha2 names

/-- Witness for C5: entity 0 is live with component A; after kill_entity 0
and a subsequent query, the query for A does not contain 0. -/
theorem destroy_purges_handle_witness :
    0 ∉ (getComponentArrays
        (runWOps (killEntity wC5 0) [WOp.query ["A"]]) ["A"]).1 :=
  (destroy_purges_handle wC5 0 (by decide) [WOp.query ["A"]] (by decide)).2
    ["A"]

/-! ## Coroutine state machine lemmas (claims C4, C7, C9) -/

theorem scanT_fires {I S : Type} (truthy : S → Bool) (i : I) (s2 : S) :
    ∀ (ts : List (SMTransition I S)) (k : Nat) (t : SMTransition I S),
      ts[k]? = some t →
      (ts.take k).all (fun u => !firesB truthy u i) = true →
      t i = some s2 → truthy s2 = true →
      scanT truthy ts i = (some s2, k + 1)
  | [], k, t, hk, _, _, _ => by simp at hk
  | t0 :: rest, 0, t, hk, _, ht, htr => by
    have h0 : t0 = t := by simpa using hk
    subst h0
    simp [scanT, ht, htr]
  | t0 :: rest, Nat.succ k, t, hk, hall, ht, htr => by
    have hk2 : rest[k]? = some t := by simpa using hk
    have hall2 : (!firesB truthy t0 i) = true
        ∧ (rest.take k).all (fun u => !firesB truthy u i) = true := by
      simpa [List.take_succ_cons] using hall
    have h0 : firesB truthy t0 i = false := by simpa using hall2.1
    have hrec := scanT_fires truthy i s2 rest k t hk2 hall2.2 ht htr
    cases hti : t0 i with
    | none => simp [scanT, hti, hrec]
    | some s1 =>
      have hs1 : truthy s1 = false := by simpa [firesB, hti] using h0
      simp [scanT, hti, hs1, hrec]

theorem scanT_no_fire {I S : Type} (truthy : S → Bool) (i : I) :
    ∀ ts : List (SMTransition I S),
      ts.all (fun t => !firesB truthy t i) = true →
      scanT truthy ts i = (none, ts.length)
  | [], _ => rfl
  | t0 :: rest, h => by
    have h2 : (!firesB truthy t0 i) = true
        ∧ rest.all (fun t => !firesB truthy t i) = true := by
      simpa using h
    have h0 : firesB truthy t0 i = false := by simpa using h2.1
    have hrec := scanT_no_fire truthy i rest h2.2
    cases hti : t0 i with
    | none => simp [scanT, hti, hrec]
    | some s1 =>
      have hs1 : truthy s1 = false := by simpa [firesB, hti] using h0
      simp [scanT, hti, hs1, hrec]

/-- C4 (amended): for the current state, the transition functions are
tried in table order; the first one returning a TRUTHY next state (non-None
and not falsy, e.g. not the empty string) determines the new state, having
evaluated exactly the transitions up to and including itself — the
remaining ones are not evaluated for that step. -/
theorem first_truthy_match_fires {I S : Type} [DecidableEq S]
    (tbl : SMTable I S) (truthy : S → Bool) (s : S) (i : I)
    (ts : List (SMTransition I S)) (k : Nat) (t : SMTransition I S) (s2 : S)
    (hfind : tbl.find? (fun p => decide (p.1 = s)) = some (s, ts))
    (hk : ts[k]? = some t)
    (hbefore : (ts.take k).all (fun u => !firesB truthy u i) = true)
    (ht : t i = some s2) (htr : truthy s2 = true) :
    stepSM tbl truthy s i = .ok ⟨s2, true, false, k + 1⟩ := by
  unfold stepSM
  rw [hfind]
  dsimp only
  rw [scanT_fires truthy i s2 ts k t hk hbefore ht htr]

/-- Witness for C4: the lock machine in state "locked" fed the digit 5
fires its first (and only) transition and moves to "entering" having
evaluated one transition function. -/
theorem first_truthy_match_fires_witness :
    stepSM tblC7 truthyStr "locked" 5 = .ok ⟨"entering", true, false, 1⟩ :=
  first_truthy_match_fires tblC7 truthyStr "locked" 5
    [fun i => if i = 5 then some "entering" else none] 0
    (fun i => if i = 5 then some "entering" else none) "entering"
    rfl rfl rfl rfl rfl

/-- Counterexample to C4 as stated: the first transition returns the
non-None state "" (the empty string), yet the machine moves to "b" — the
second transition — having evaluated both, because the walrus test in the
source checks Python truthiness, not non-None-ness. -/
theorem first_truthy_match_fires_cex :
    t1C4 0 = some ""
    ∧ stepSM tblC4 truthyStr "a" 0 = .ok ⟨"b", true, false, 2⟩
    ∧ ("" : String) ≠ "b" := by
  refine ⟨rfl, rfl, by decide⟩

/-- C7 (amended): in the coroutine StateMachine of statemachine.py, an
input matching no transition of the current state leaves the machine in
that state, fires the not_triggered message, and raises no error; the
class-based variant in state_machine.py instead raises KeyError in this
situation. -/
theorem no_match_stays_put {I S : Type} [DecidableEq S]
    (tbl : SMTable I S) (truthy : S → Bool) (s : S) (i : I)
    (ts : List (SMTransition I S))
    (hfind : tbl.find? (fun p => decide (p.1 = s)) = some (s, ts))
    (hnone : ts.all (fun t => !firesB truthy t i) = true) :
    stepSM tbl truthy s i = .ok ⟨s, false, true, ts.length⟩ := by
  unfold stepSM
  rw [hfind]
  dsimp only
  rw [scanT_no_fire truthy i ts hnone]

/-- Witness for C7: the lock machine in state "locked" fed the non-digit 9
stays in "locked" with a not_triggered notification and no error. -/
theorem no_match_stays_put_witness :
    stepSM tblC7 truthyStr "locked" 9 = .ok ⟨"locked", false, true, 1⟩ :=
  no_match_stays_put tblC7 truthyStr "locked" 9
    [fun i => if i = 5 then some "entering" else none] rfl rfl

/-- Counterexample to C7 as stated: the class-based StateMachine of
state_machine.py raises KeyError("No transition for ...") when the input
matches no transition of the current state, rather than staying put
silently. -/
theorem no_match_stays_put_cex :
    nextStateCls tblC7cls "locked" 2 = .error .noTransition := rfl

/-- C9 (amended): there is no RESET sentinel: every input is evaluated
against the current state's transition list only.  In particular a state
with an empty transition list absorbs every input — the machine stays in
it, fires not_triggered, and invokes zero transition functions — so no
input can unconditionally restore the initial state. -/
theorem no_reset_sentinel {I S : Type} [DecidableEq S]
    (tbl : SMTable I S) (truthy : S → Bool) (s : S) (i : I)
    (hfind : tbl.find? (fun p => decide (p.1 = s)) = some (s, [])) :
    stepSM tbl truthy s i = .ok ⟨s, false, true, 0⟩ := by
  unfold stepSM
  rw [hfind]
  rfl

/-- Witness for C9: in the machine whose state "B" has no transitions, the
input false leaves the machine in "B" with no transition invoked. -/
theorem no_reset_sentinel_witness :
    stepSM tblC9 truthyStr "B" false = .ok ⟨"B", false, true, 0⟩ :=
  no_reset_sentinel tblC9 truthyStr "B" false rfl

/-- Counterexample to C9 as stated: the declared initial state of the
machine is "A", yet from state "B" every possible input (the input type
has exactly the two values true and false) leaves the machine in "B": no
RESET sentinel input returns it to the initial state. -/
theorem no_reset_sentinel_cex :
    initialStateSM tblC9 none = some "A"
    ∧ stepSM tblC9 truthyStr "B" true = .ok ⟨"B", false, true, 0⟩
    ∧ stepSM tblC9 truthyStr "B" false = .ok ⟨"B", false, true, 0⟩
    ∧ ("B" : String) ≠ "A" := by
  refine ⟨rfl, rfl, rfl, by decide⟩

/-! ## Absent-read behaviour (claim C6) -/

/-- C6 (amended): the store's indexing get/remove on an inactive index
raise the not-present KeyError carrying the index — the same error kind
whether the index was never set, explicitly cleared, or beyond capacity
(there is no distinct out-of-bounds error) — while the component
descriptor read returns the silent default None whenever a store exists
for the name and the id is inactive, and raises a KeyError only when no
store exists for the name at all. -/
theorem absent_read_behaviour {V : Type} (w : World V) (name : String)
    (eid : Nat) (st : SparseArray V)
    (hfind : w.components.find? (fun p => decide (p.1 = name))
      = some (name, st))
    (hin : eid ∉ st.activeSet) :
    componentGet w name eid = .ok none
    ∧ (∀ (a : SparseArray V) (i : Nat), i ∉ a.activeSet →
        a.getitem i = .error (.keyError i))
    ∧ (∀ (a : SparseArray V) (i : Nat), i ∉ a.activeSet →
        a.delitem i = .error (.keyError i))
    ∧ (∀ name2, w.components.find? (fun p => decide (p.1 = name2)) = none →
        componentGet w name2 eid = .error (.keyErrorName name2)) := by
  refine ⟨?_, ?_, ?_, ?_⟩
  · unfold componentGet lookupStore
    rw [hfind]
    simp [SparseArray.getD, hin]
  · intro a i hi
    unfold SparseArray.getitem
    rw [if_neg hi]
  · intro a i hi
    unfold SparseArray.delitem
    rw [if_neg hi]
  · intro name2 hf
    unfold componentGet lookupStore
    rw [hf]
    rfl

/-- Witness for C6 (amended): in the world where entity 0 has "pos" and
entity 1 has nothing, the descriptor read of "pos" for entity 1 silently
returns None, and a store getitem on a never-set index raises KeyError. -/
theorem absent_read_behaviour_witness :
    componentGet wC6 "pos" 1 = .ok none
    ∧ stNeverC6.getitem 2 = .error (.keyError 2) :=
  ⟨(absent_read_behaviour wC6 "pos" 1 ((SparseArray.mkArr 1024).setitem 0 5)
      rfl (by decide)).1,
    (absent_read_behaviour wC6 "pos" 1 ((SparseArray.mkArr 1024).setitem 0 5)
      rfl (by decide)).2.1 stNeverC6 2 (by decide)⟩

/-- Counterexample to C6 as stated: reading the never-set component "pos"
of entity 1 through the descriptor yields the silent default None, not a
typed error; and the store error for a never-set in-capacity index, for an
explicitly cleared index, and for an index beyond capacity is the same
KeyError kind — not distinguishable. -/
theorem absent_read_behaviour_cex :
    componentGet wC6 "pos" 1 = .ok none
    ∧ stNeverC6.getitem 2 = stClearedC6.getitem 2
    ∧ stNeverC6.getitem 2 = .error (.keyError 2)
    ∧ stNeverC6.getitem 99 = .error (.keyError 99) := by
  refine ⟨rfl, rfl, rfl, rfl⟩

/-! ## Channel cancellation (claim C8) -/

theorem pubLoop_stopped : ∀ subs : List Subscriber,
    pubLoop subs true = ([], true)
  | [] => rfl
  | s :: rest => by simp [pubLoop, pubLoop_stopped rest]

theorem pubLoop_cancel_at :
    ∀ (subs : List Subscriber) (k : Nat) (sub : Subscriber),
      subs[k]? = some sub →
      (subs.take k).all (fun s => !s.cancels) = true →
      sub.cancels = true →
      pubLoop subs false = ((subs.take (k + 1)).map (fun s => s.sid), true)
  | [], k, sub, hk, _, _ => by simp at hk
  | s :: rest, 0, sub, hk, _, hc => by
    have h0 : s = sub := by simpa using hk
    subst h0
    simp [pubLoop, hc, pubLoop_stopped rest]
  | s :: rest, Nat.succ k, sub, hk, hall, hc => by
    have hk2 : rest[k]? = some sub := by simpa using hk
    have hall2 : (!s.cancels) = true
        ∧ (rest.take k).all (fun u => !u.cancels) = true := by
      simpa [List.take_succ_cons] using hall
    have hs : s.cancels = false := by simpa using hall2.1
    simp [pubLoop, hs, pubLoop_cancel_at rest k sub hk2 hall2.2 hc,
      List.take_succ_cons]

theorem pubLoop_none_cancel : ∀ subs : List Subscriber,
    subs.all (fun s => !s.cancels) = true →
    pubLoop subs false = (subs.map (fun s => s.sid), false)
  | [], _ => rfl
  | s :: rest, h => by
    have h2 : (!s.cancels) = true ∧ rest.all (fun u => !u.cancels) = true := by
      simpa using h
    have hs : s.cancels = false := by simpa using h2.1
    simp [pubLoop, hs, pubLoop_none_cancel rest h2.2]

/-- C8: when a subscriber signals cancellation (sets the stopProcessing
flag during a publish whose earlier subscribers did not), the subscribers
after it and the default wrapped callback do not run for that publish, the
flag is reset at the end, and a publish on a message whose flag is clear
and whose subscribers do not cancel runs every subscriber and the default
callback normally. -/
theorem cancel_short_circuits (m : Message) (k : Nat) (sub : Subscriber)
    (h0 : m.stopProcessing = false)
    (hk : m.subscribers[k]? = some sub)
    (hbefore : (m.subscribers.take k).all (fun s => !s.cancels) = true)
    (hc : sub.cancels = true) :
    (publish m).1 = (m.subscribers.take (k + 1)).map (fun s => s.sid)
    ∧ (publish m).2.1 = false
    ∧ (publish m).2.2.stopProcessing = false
    ∧ (∀ m2 : Message, m2.stopProcessing = false →
        m2.subscribers.all (fun s => !s.cancels) = true →
        (publish m2).1 = m2.subscribers.map (fun s => s.sid)
        ∧ (publish m2).2.1 = m2.hasCallback) := by
  have hloop := pubLoop_cancel_at m.subscribers k sub hk hbefore hc
  refine ⟨?_, ?_, rfl, ?_⟩
  · simp [publish, h0, hloop]
  · simp [publish, h0, hloop]
  · intro m2 h02 hnc
    have hloop2 := pubLoop_none_cancel m2.subscribers hnc
    constructor
    · simp [publish, h02, hloop2]
    · simp [publish, h02, hloop2]

/-- Witness for C8: of the three subscribers 0, 1, 2 with a default
callback, subscriber 1 cancels: only 0 and 1 run, the callback does not,
and the flag is clear afterwards. -/
theorem cancel_short_circuits_witness :
    (publish msgC8).1 = [0, 1]
    ∧ (publish msgC8).2.1 = false
    ∧ (publish msgC8).2.2.stopProcessing = false :=
  ⟨by
    have h := (cancel_short_circuits msgC8 1 ⟨1, true⟩ rfl rfl rfl rfl).1
    simpa using h,
   (cancel_short_circuits msgC8 1 ⟨1, true⟩ rfl rfl rfl rfl).2.1,
   (cancel_short_circuits msgC8 1 ⟨1, true⟩ rfl rfl rfl rfl).2.2.1⟩

end Pygskin
